import Mathlib

/-!
Shallow embedding of the `data_platform_libs` provider-side relation
libraries (`resource_provides.py`, `database_provides.py`,
`kafka_provides.py`, `zookeeper_provides.py`).

Relation databags map string keys to string values; a Python `dict` is
modelled as an association list (`Smap`) whose operations mirror `dict`
semantics (lookup of the first matching key; `dict.update` replaces an
existing key in place and appends a fresh one).

The snapshot stored under the reserved key `"data"` is serialized with
`json.dumps` and read back with `json.loads`.  The serialization of a
string-to-string mapping is modelled executably: `dumps` emits the JSON
object text with Python's default separators and string escaping for the
quote and backslash characters; `loads` is a partial parser returning
`none` exactly on input it cannot parse, mirroring `json.loads` raising
`JSONDecodeError` (the Python source has no handler for that exception,
so parse failure is modelled as the error branch of `Except`).
-/

deriving instance DecidableEq for Except

/-- A relation databag: ordered association list of string keys to string
values, with the semantics of a Python `dict`. -/
abbrev Smap := List (String × String)

/-- Lookup the value of a key, first match wins (total key uniqueness holds
for every list arising from a Python `dict`). -/
def bagLookup : Smap → String → Option String
  | [], _ => none
  | p :: t, k => if p.1 = k then some p.2 else bagLookup t k

/-- One step of `dict.update`: replace an existing key in place, else
append the new pair at the end. -/
def updOne : Smap → String → String → Smap
  | [], k, v => [(k, v)]
  | p :: t, k, v => if p.1 = k then (k, v) :: t else p :: updOne t k v

/-- Python `dict.update(fields)`: per-key upsert, applied left to right. -/
def bagUpdate (m : Smap) (fields : Smap) : Smap :=
  fields.foldl (fun acc p => updOne acc p.1 p.2) m

/-- Key set of a bag (`dict.keys()`, compared with Python set operations). -/
def bagKeys (m : Smap) : Finset String :=
  (m.map Prod.fst).toFinset

/-- The peer view used by `_diff` and `fetch_relation_data`: the peer bag
with the reserved snapshot key excluded
(`{key: value for key, value in ... .items() if key != "data"}`). -/
def peerView : Smap → Smap
  | [] => []
  | p :: t => if p.1 = "data" then peerView t else p :: peerView t

/-- The double-quote character. -/
def dquoteC : Char := Char.ofNat 34

/-- The backslash character. -/
def bslashC : Char := Char.ofNat 92

/-- The opening curly brace character. -/
def lbraceC : Char := Char.ofNat 123

/-- The closing curly brace character. -/
def rbraceC : Char := Char.ofNat 125

/-- The colon character. -/
def colonC : Char := ':'

/-- The comma character. -/
def commaC : Char := ','

/-- The space character. -/
def spaceC : Char := ' '

/-- JSON string escaping of one character (quote and backslash escaped). -/
def quoteChar (c : Char) : List Char :=
  if c = dquoteC ∨ c = bslashC then [bslashC, c] else [c]

/-- JSON string literal for `s`, including the delimiting quotes. -/
def quoteStr (s : String) : List Char :=
  dquoteC :: ((s.data.map quoteChar).flatten ++ [dquoteC])

/-- One serialized `"key": "value"` entry (Python `json.dumps` default
key separator `": "`). -/
def encPair (p : String × String) : List Char :=
  quoteStr p.1 ++ (colonC :: spaceC :: quoteStr p.2)

/-- Serialized entry list (Python `json.dumps` default item separator
`", "`). -/
def encEntries : Smap → List Char
  | [] => []
  | [p] => encPair p
  | p :: q :: t => encPair p ++ (commaC :: spaceC :: encEntries (q :: t))

/-- Model of `json.dumps` on a string-to-string mapping. -/
def dumps (m : Smap) : String :=
  String.mk (lbraceC :: (encEntries m ++ [rbraceC]))

/-- The serialized empty mapping, default for a missing snapshot key
(the Python source passes the literal text of an empty JSON object). -/
def emptyJsonStr : String :=
  String.mk [lbraceC, rbraceC]

/-- Parse a JSON string body up to its closing quote; returns the decoded
characters and the unconsumed remainder. -/
def unquote : List Char → Option (List Char × List Char)
  | [] => none
  | c :: rest =>
    if c = dquoteC then some ([], rest)
    else if c = bslashC then
      match rest with
      | [] => none
      | d :: rest2 =>
        if d = dquoteC ∨ d = bslashC then
          match unquote rest2 with
          | some (s, r) => some (d :: s, r)
          | none => none
        else none
    else
      match unquote rest with
      | some (s, r) => some (c :: s, r)
      | none => none

/-- Parse one `"key": "value"` entry. -/
def parseKV (l : List Char) : Option ((String × String) × List Char) :=
  match l with
  | [] => none
  | c :: rest =>
    if c = dquoteC then
      match unquote rest with
      | none => none
      | some (k, r1) =>
        match r1 with
        | c1 :: c2 :: c3 :: r2 =>
          if c1 = colonC ∧ c2 = spaceC ∧ c3 = dquoteC then
            match unquote r2 with
            | none => none
            | some (v, r3) => some ((String.mk k, String.mk v), r3)
          else none
        | _ => none
    else none

/-- Parse a non-empty comma-separated entry sequence terminated by the
closing brace (fuel-indexed to bound the recursion). -/
def parseEntries : Nat → List Char → Option (Smap × List Char)
  | 0, _ => none
  | fuel + 1, l =>
    match parseKV l with
    | none => none
    | some (p, r) =>
      match r with
      | [] => none
      | c :: rest =>
        if c = rbraceC then some ([p], rest)
        else if c = commaC then
          match rest with
          | [] => none
          | c2 :: rest2 =>
            if c2 = spaceC then
              match parseEntries fuel rest2 with
              | none => none
              | some (m, r2) => some (p :: m, r2)
            else none
        else none

/-- Parse what follows the opening brace of a JSON object: either the
immediate closing brace of the empty object, or a non-empty entry
sequence consuming the whole remaining input. -/
def loadsBody (rest : List Char) : Option Smap :=
  if rest = [rbraceC] then some []
  else
    match parseEntries (rest.length + 1) rest with
    | none => none
    | some (m, r) => if r = [] then some m else none

/-- Model of `json.loads` restricted to JSON objects of strings: returns
`none` exactly when the input is not parseable (where `json.loads`
raises `JSONDecodeError`). -/
def loads (s : String) : Option Smap :=
  match s.data with
  | [] => none
  | c :: rest => if c = lbraceC then loadsBody rest else none

/-- The `Diff` namedtuple of `resource_provides.py`: keys added, changed
and deleted between two observations (Python `set`s of strings). -/
structure Diff where
  added : Finset String
  changed : Finset String
  deleted : Finset String
deriving DecidableEq

/-- The three set expressions computed inside `BaseResourceProvides._diff`
from the parsed old snapshot and the filtered new peer data. -/
def computeDelta (old newData : Smap) : Diff :=
  { added := bagKeys newData \ bagKeys old
    changed :=
      (bagKeys old ∩ bagKeys newData).filter
        (fun k => bagLookup old k ≠ bagLookup newData k)
    deleted := bagKeys old \ bagKeys newData }

/-- Python exceptions that can escape the modelled code paths. -/
inductive PyErr
  | jsonDecodeError
  | attributeError
deriving DecidableEq

/-- The typed event kinds defined by the three flavor libraries. -/
inductive EventKind
  | databaseRequested
  | topicCreated
  | znodeCreated
deriving DecidableEq

/-- The provider flavors. -/
inductive Flavor
  | database
  | kafka
  | zookeeper
deriving DecidableEq

/-- The trigger key each flavor's `_on_relation_changed` tests against
`diff.added`. -/
def triggerKey : Flavor → String
  | .database => "database"
  | .kafka => "topic"
  | .zookeeper => "chroot"

/-- Attribute path used by the emit statement in each flavor's
`_on_relation_changed`, exactly as written in the source. -/
inductive EmitPath
  | viaOn (name : String)
  | direct (name : String)
deriving DecidableEq

/-- The emit expression written in each handler:
`DatabaseProvides` writes `self.on.database_requested.emit(...)`,
`KafkaProvides` writes `self.topic_created.emit(...)`, and
`ZookeeperProvides` writes `self.topic_created.emit(...)`. -/
def emitExpr : Flavor → EmitPath
  | .database => .viaOn "database_requested"
  | .kafka => .direct "topic_created"
  | .zookeeper => .direct "topic_created"

/-- The bound event sources reachable through `self.on` for each flavor:
`DatabaseEvents` declares `database_requested`, `KafkaEvents` declares
`topic_created`, `ZookeeperEvents` declares `znode_created`. -/
def onSources : Flavor → List (String × EventKind)
  | .database => [("database_requested", .databaseRequested)]
  | .kafka => [("topic_created", .topicCreated)]
  | .zookeeper => [("znode_created", .znodeCreated)]

/-- Python attribute resolution of the emit expression against the
provider object.  `viaOn n` looks `n` up among the events class's
`EventSource` attributes.  `direct n` looks `n` up on the provider
instance itself: neither the flavor provider classes nor their bases
(`BaseResourceProvides`, `TlsEnabledRelation`, `ops.framework.Object`)
define any `EventSource` attribute, so the lookup finds nothing and
Python raises `AttributeError`. -/
def resolveEmit (f : Flavor) : EmitPath → Option EventKind
  | .viaOn n => ((onSources f).find? (fun p => p.1 = n)).map Prod.snd
  | .direct _ => none

/-- A relation-changed notification: the notifying peer application and
unit names and the current content of the peer application databag. -/
structure Notif where
  app : String
  unitName : String
  peerBag : Smap
deriving DecidableEq

/-- A constructed-and-emitted typed event: its kind plus the identity
context passed to `emit(event.relation, app=event.app, unit=event.unit)`. -/
structure Emitted where
  kind : EventKind
  app : String
  unitName : String
deriving DecidableEq

/-- `BaseResourceProvides._diff`: load the old snapshot from the local
application bag (default `"{}"` when the key is absent; a present but
unparseable value raises), filter the peer bag, classify keys, store the
new snapshot under `"data"`, and return the delta together with the
updated local bag. -/
def diffFn (localBag peerBag : Smap) : Except PyErr (Diff × Smap) :=
  match loads ((bagLookup localBag "data").getD emptyJsonStr) with
  | none => .error .jsonDecodeError
  | some old =>
    let newData := peerView peerBag
    .ok
      (computeDelta old newData,
       bagUpdate localBag [("data", dumps newData)])

/-- `_on_relation_changed` of a flavor provider: a non-leader returns at
once; a leader computes the diff (which may raise a JSON decode error),
then, when the flavor's trigger key is in `diff.added`, evaluates the
emit expression written in the source — emitting one typed event carrying
the notifying peer's application and unit when the attribute resolves,
and raising `AttributeError` when it does not. -/
def onRelationChanged (f : Flavor) (isLeader : Bool) (localBag : Smap)
    (ev : Notif) : Except PyErr (Smap × List Emitted) :=
  if isLeader then
    match diffFn localBag ev.peerBag with
    | .error e => .error e
    | .ok (d, localBag2) =>
      if triggerKey f ∈ d.added then
        match resolveEmit f (emitExpr f) with
        | some k => .ok (localBag2, [⟨k, ev.app, ev.unitName⟩])
        | none => .error .attributeError
      else .ok (localBag2, [])
  else .ok (localBag, [])

/-- `BaseResourceProvides._update_relation_data`: only the leader writes;
the write is `dict.update` (per-key upsert) into the provider's own
application bag. -/
def updateRelationData (isLeader : Bool) (localBag : Smap)
    (fields : Smap) : Smap :=
  if isLeader then bagUpdate localBag fields else localBag

/-- The capability accessor write operations defined by the libraries,
each a fixed field dictionary passed to `_update_relation_data`. -/
inductive WriteOp
  | setVersion (version : String)
  | setCredentials (username : String) (password : String)
  | setTls (tls : String)
  | setTlsCa (tlsCa : String)
  | setEndpoints (cs : String)
  | setReadOnlyEndpoints (cs : String)
  | setReplset (rs : String)
  | setUris (uris : String)
deriving DecidableEq

/-- The field dictionary each accessor passes, exactly as in the source. -/
def opFields : WriteOp → Smap
  | .setVersion v => [("version", v)]
  | .setCredentials u p => [("username", u), ("password", p)]
  | .setTls t => [("tls", t)]
  | .setTlsCa c => [("tls_ca", c)]
  | .setEndpoints c => [("endpoints", c)]
  | .setReadOnlyEndpoints c => [("read-only-endpoints", c)]
  | .setReplset r => [("replset", r)]
  | .setUris u => [("uris", u)]

/-- Effect of one capability accessor call on the provider's bag. -/
def applyOp (isLeader : Bool) (localBag : Smap) (op : WriteOp) : Smap :=
  updateRelationData isLeader localBag (opFields op)

/-- `BaseResourceAccessEvent.extra_user_roles`: reads the key from the
peer application bag at call time, `None` when absent. -/
def BaseResourceAccessEvent.extra_user_roles (peerBag : Smap) : Option String :=
  bagLookup peerBag "extra-user-roles"

/-- `DatabaseEvent.database`: reads the key from the peer application bag
at call time, `None` when absent. -/
def DatabaseEvent.database (peerBag : Smap) : Option String :=
  bagLookup peerBag "database"

/-- `KafkaEvent.topic`: reads the key from the peer application bag at
call time, `None` when absent. -/
def KafkaEvent.topic (peerBag : Smap) : Option String :=
  bagLookup peerBag "topic"

/-- `ZookeeperEvent.chroot`: reads the key from the peer application bag
at call time, `None` when absent. -/
def ZookeeperEvent.chroot (peerBag : Smap) : Option String :=
  bagLookup peerBag "chroot"

/-- Updating a key makes it readable back. -/
theorem bagLookup_updOne_self (m : Smap) (k v : String) :
    bagLookup (updOne m k v) k = some v := by
  induction m with
  | nil => simp [updOne, bagLookup]
  | cons p t ih =>
    by_cases h : p.1 = k
    · simp [updOne, h, bagLookup]
    · simp [updOne, h, bagLookup, ih]

/-- Updating a key leaves every other key unchanged. -/
theorem bagLookup_updOne_ne (m : Smap) (k v k2 : String) (h : k2 ≠ k) :
    bagLookup (updOne m k v) k2 = bagLookup m k2 := by
  induction m with
  | nil => simp [updOne, bagLookup, Ne.symm h]
  | cons p t ih =>
    by_cases hp : p.1 = k
    · have hpk : p.1 ≠ k2 := by rw [hp]; exact Ne.symm h
      simp [updOne, hp, bagLookup, Ne.symm h, hpk]
    · by_cases hq : p.1 = k2
      · simp [updOne, hp, bagLookup, hq, h]
      · simp [updOne, hp, bagLookup, hq, ih]

/-- A key missing from a bag looks up to `none`. -/
theorem bagLookup_eq_none (m : Smap) (k : String)
    (h : k ∉ m.map Prod.fst) : bagLookup m k = none := by
  induction m with
  | nil => rfl
  | cons p t ih =>
    simp only [List.map_cons, List.mem_cons] at h
    push_neg at h
    have hp : p.1 ≠ k := Ne.symm h.1
    simp [bagLookup, hp, ih h.2]

/-- A key that looks up to a value is among the bag's keys. -/
theorem mem_of_bagLookup_some {m : Smap} {k v : String}
    (h : bagLookup m k = some v) : k ∈ m.map Prod.fst := by
  induction m with
  | nil => simp [bagLookup] at h
  | cons p t ih =>
    by_cases hp : p.1 = k
    · simp [hp]
    · simp only [bagLookup, hp, if_false] at h
      simp [ih h]

/-- Unfolding of `dict.update` on a cons cell. -/
theorem bagUpdate_cons (m : Smap) (f : String × String) (t : Smap) :
    bagUpdate m (f :: t) = bagUpdate (updOne m f.1 f.2) t := rfl

/-- `dict.update` leaves keys outside the field dictionary unchanged. -/
theorem bagLookup_bagUpdate_not_mem (fields : Smap) (m : Smap) (k : String)
    (h : k ∉ fields.map Prod.fst) :
    bagLookup (bagUpdate m fields) k = bagLookup m k := by
  induction fields generalizing m with
  | nil => rfl
  | cons f t ih =>
    simp only [List.map_cons, List.mem_cons] at h
    push_neg at h
    rw [bagUpdate_cons, ih _ h.2, bagLookup_updOne_ne _ _ _ _ h.1]

/-- `dict.update` writes every key of a duplicate-free field dictionary. -/
theorem bagLookup_bagUpdate_mem (fields : Smap) (m : Smap) (k v : String)
    (hnd : (fields.map Prod.fst).Nodup) (h : bagLookup fields k = some v) :
    bagLookup (bagUpdate m fields) k = some v := by
  induction fields generalizing m with
  | nil => simp [bagLookup] at h
  | cons f t ih =>
    rw [bagUpdate_cons]
    simp only [List.map_cons, List.nodup_cons] at hnd
    by_cases hf : f.1 = k
    · have hv : f.2 = v := by
        simp only [bagLookup, hf, if_pos rfl] at h
        exact Option.some.inj h
      have hk : k ∉ t.map Prod.fst := hf ▸ hnd.1
      rw [bagLookup_bagUpdate_not_mem t _ k hk, ← hf, ← hv]
      exact hf ▸ bagLookup_updOne_self m f.1 f.2
    · have h2 : bagLookup t k = some v := by
        simpa [bagLookup, hf] using h
      exact ih _ hnd.2 h2

/-- Filtering out the reserved key does not change any other lookup. -/
theorem bagLookup_peerView (m : Smap) (k : String) (h : k ≠ "data") :
    bagLookup (peerView m) k = bagLookup m k := by
  induction m with
  | nil => rfl
  | cons p t ih =>
    by_cases hp : p.1 = "data"
    · simp [peerView, hp, bagLookup, Ne.symm h, ih]
    · by_cases hq : p.1 = k
      · simp [peerView, hp, bagLookup, hq, h]
      · simp [peerView, hp, bagLookup, hq, ih]

/-- Membership in the key set of a bag. -/
theorem mem_bagKeys {m : Smap} {k : String} :
    k ∈ bagKeys m ↔ k ∈ m.map Prod.fst := by
  simp [bagKeys]

/-- Diffing a mapping against itself classifies nothing. -/
theorem computeDelta_self (m : Smap) : computeDelta m m = ⟨∅, ∅, ∅⟩ := by
  simp [computeDelta]


/-- The escaping of a string body is inverted by the string parser. -/
theorem unquote_quoted : ∀ (l rest : List Char),
    unquote ((l.map quoteChar).flatten ++ (dquoteC :: rest)) = some (l, rest)
  | [], rest => by
    rw [List.map_nil, List.flatten_nil, List.nil_append, unquote.eq_def]
    simp
  | c :: t, rest => by
    rw [List.map_cons, List.flatten_cons, List.append_assoc]
    by_cases h : c = dquoteC ∨ c = bslashC
    · have hb1 : ¬ (bslashC = dquoteC) := by decide
      rw [show quoteChar c = [bslashC, c] from by simp [quoteChar, h]]
      rw [List.cons_append, List.cons_append, List.nil_append, unquote.eq_def]
      simp [hb1, h, unquote_quoted t rest]
    · push_neg at h
      rw [show quoteChar c = [c] from by simp [quoteChar, h.1, h.2]]
      rw [List.cons_append, List.nil_append, unquote.eq_def]
      simp [h.1, h.2, unquote_quoted t rest]

/-- Structure-eta for strings. -/
theorem stringMk_data (s : String) : String.mk s.data = s := rfl

/-- One serialized entry is inverted by the entry parser. -/
theorem parseKV_encPair (p : String × String) (rest : List Char) :
    parseKV (encPair p ++ rest) = some (p, rest) := by
  obtain ⟨k, v⟩ := p
  have h1 := unquote_quoted k.data
    (colonC :: spaceC :: dquoteC :: ((v.data.map quoteChar).flatten ++ (dquoteC :: rest)))
  have h2 := unquote_quoted v.data rest
  simp only [encPair, quoteStr, List.cons_append, List.append_assoc,
    List.singleton_append]
  simp [parseKV, h1, h2, stringMk_data]

/-- One step of the entry-sequence parser past a serialized entry that is
followed by the item separator. -/
theorem parseEntries_step (fuel : Nat) (p : String × String) (l : List Char) :
    parseEntries (fuel + 1) (encPair p ++ (commaC :: spaceC :: l)) =
      match parseEntries fuel l with
      | none => none
      | some (m, r2) => some (p :: m, r2) := by
  have hkv := parseKV_encPair p (commaC :: spaceC :: l)
  have hc1 : ¬ (commaC = rbraceC) := by decide
  rw [parseEntries.eq_def]
  simp [hkv, hc1]

/-- A serialized entry sequence is inverted by the entry-list parser,
given fuel at least the number of entries. -/
theorem parseEntries_encEntries :
    ∀ (m : Smap) (p : String × String) (fuel : Nat) (rest : List Char),
    m.length ≤ fuel →
    parseEntries (fuel + 1) (encEntries (p :: m) ++ (rbraceC :: rest)) =
      some (p :: m, rest) := by
  intro m
  induction m with
  | nil =>
    intro p fuel rest _
    have hkv := parseKV_encPair p (rbraceC :: rest)
    rw [encEntries, parseEntries.eq_def]
    simp [hkv]
  | cons q t ih =>
    intro p fuel rest hlen
    cases fuel with
    | zero => simp at hlen
    | succ f =>
      have hf : t.length ≤ f := by simpa using hlen
      have hform : encEntries (p :: q :: t) ++ (rbraceC :: rest) =
          encPair p ++ (commaC :: spaceC :: (encEntries (q :: t) ++ (rbraceC :: rest))) := by
        simp [encEntries, List.append_assoc]
      rw [hform, parseEntries_step, ih q f rest hf]

/-- Entry count is bounded by serialized length. -/
theorem length_le_encEntries : ∀ m : Smap, m.length ≤ (encEntries m).length := by
  intro m
  induction m with
  | nil => simp [encEntries]
  | cons p t ih =>
    cases t with
    | nil => simp [encEntries, encPair, quoteStr]
    | cons q u =>
      simp only [encEntries, encPair, quoteStr] at ih ⊢
      simp only [List.length_append, List.length_cons] at ih ⊢
      omega

/-- A non-empty serialized entry list starts with a double quote. -/
theorem encEntries_cons_head (p : String × String) (t : Smap) :
    ∃ x, encEntries (p :: t) = dquoteC :: x := by
  cases t with
  | nil =>
    refine ⟨((p.1.data.map quoteChar).flatten ++ [dquoteC]) ++
      (colonC :: spaceC :: quoteStr p.2), ?_⟩
    simp [encEntries, encPair, quoteStr]
  | cons q u =>
    refine ⟨((p.1.data.map quoteChar).flatten ++ [dquoteC]) ++
      ((colonC :: spaceC :: quoteStr p.2) ++ (commaC :: spaceC :: encEntries (q :: u))), ?_⟩
    simp [encEntries, encPair, quoteStr]

/-- The serializer and parser round-trip on every mapping. -/
theorem loads_dumps (m : Smap) : loads (dumps m) = some m := by
  cases m with
  | nil => decide
  | cons p t =>
    obtain ⟨x, hx⟩ := encEntries_cons_head p t
    have hne : ¬ (encEntries (p :: t) ++ [rbraceC] = [rbraceC]) := by
      rw [hx]
      intro hc
      have hlc := congrArg List.length hc
      simp at hlc
    have hlen : t.length ≤ (encEntries (p :: t)).length + 1 := by
      have h1 := length_le_encEntries (p :: t)
      simp only [List.length_cons] at h1
      omega
    have hpe := parseEntries_encEntries t p
      ((encEntries (p :: t)).length + 1) [] hlen
    have hdata : (dumps (p :: t)).data =
        lbraceC :: (encEntries (p :: t) ++ [rbraceC]) := rfl
    simp only [loads, hdata]
    simp [loadsBody, hne, hpe]

/-- Inversion of a successful `_diff` call: the stored snapshot parsed,
the delta is the three-set classification against the filtered peer bag,
and the updated local bag stores the new serialized snapshot. -/
theorem diffFn_ok_parts {localBag peerBag : Smap} {d : Diff} {localBag2 : Smap}
    (h : diffFn localBag peerBag = .ok (d, localBag2)) :
    ∃ old, loads ((bagLookup localBag "data").getD emptyJsonStr) = some old ∧
      d = computeDelta old (peerView peerBag) ∧
      localBag2 = bagUpdate localBag [("data", dumps (peerView peerBag))] := by
  cases hl : loads ((bagLookup localBag "data").getD emptyJsonStr) with
  | none =>
    rw [diffFn, hl] at h
    exact Except.noConfusion h
  | some old =>
    rw [diffFn, hl] at h
    simp only [Except.ok.injEq, Prod.mk.injEq] at h
    exact ⟨old, rfl, h.1.symm, h.2.symm⟩

/-- C1: the claim says every flavor (database, kafka, zookeeper) whose
trigger key lands in `delta.added` successfully constructs and emits one
event of the mapped kind.  Evaluating the handlers at their trigger
inputs: the database flavor does emit one `DatabaseRequestedEvent`
carrying the peer identity, but the kafka and zookeeper handlers fail
with `AttributeError` — their source reads `self.topic_created.emit`,
an attribute that exists only on the events class (reachable as
`self.on.topic_created` resp. `self.on.znode_created`), not on the
provider object. -/
theorem claim_C1_flavor_emit_evaluation :
    onRelationChanged .database true [] ⟨"appA", "appA/0", [("database", "db1")]⟩ =
      .ok ([("data", dumps [("database", "db1")])],
        [⟨.databaseRequested, "appA", "appA/0"⟩]) ∧
    onRelationChanged .kafka true [] ⟨"appA", "appA/0", [("topic", "t1")]⟩ =
      .error .attributeError ∧
    onRelationChanged .zookeeper true [] ⟨"appA", "appA/0", [("chroot", "c1")]⟩ =
      .error .attributeError :=
  ⟨by decide, by decide, by decide⟩

/-- C2 counterexample: a stored snapshot value that is not parseable is
not recovered as an empty mapping — the diff computation fails with the
JSON decode error instead of completing normally. -/
theorem claim_C2_malformed_snapshot_cex :
    loads "garbage" = none ∧
    diffFn [("data", "garbage")] [("database", "db1")] = .error .jsonDecodeError :=
  ⟨by decide, by decide⟩

/-- C2 amended: only an absent snapshot key is treated as the empty
mapping (the lookup default is the literal empty-object text), and the
diff then completes normally; a present but unparseable snapshot value
makes the diff computation fail with a JSON decode error, which
propagates into the notification pipeline. -/
theorem claim_C2_malformed_snapshot_amended :
    (∀ localBag peerBag : Smap, bagLookup localBag "data" = none →
      diffFn localBag peerBag =
        .ok (computeDelta [] (peerView peerBag),
          bagUpdate localBag [("data", dumps (peerView peerBag))])) ∧
    (∀ (localBag peerBag : Smap) (s : String),
      bagLookup localBag "data" = some s → loads s = none →
      diffFn localBag peerBag = .error .jsonDecodeError) := by
  constructor
  · intro lb pb h
    have hload : loads ((bagLookup lb "data").getD emptyJsonStr) = some [] := by
      rw [h]
      decide
    rw [diffFn, hload]
  · intro lb pb s h hs
    have hload : loads ((bagLookup lb "data").getD emptyJsonStr) = none := by
      rw [h]
      exact hs
    rw [diffFn, hload]

/-- Witness for the amended C2 at concrete inputs. -/
theorem claim_C2_malformed_snapshot_witness :
    diffFn [] [("topic", "t1")] =
      .ok (computeDelta [] (peerView [("topic", "t1")]),
        bagUpdate [] [("data", dumps (peerView [("topic", "t1")]))]) ∧
    diffFn [("data", "junk")] [] = .error .jsonDecodeError :=
  ⟨claim_C2_malformed_snapshot_amended.1 [] [("topic", "t1")] (by decide),
   claim_C2_malformed_snapshot_amended.2 [("data", "junk")] [] "junk"
     (by decide) (by decide)⟩

/-- C3: a guarded write as non-leader never mutates the provider's bag,
and a guarded write as leader upserts exactly the keys of the field
dictionary, leaving every other key (previously written fields, the
snapshot key) untouched — a merge, not a replace. -/
theorem claim_C3_leader_gating (localBag fields : Smap) :
    updateRelationData false localBag fields = localBag ∧
    ((fields.map Prod.fst).Nodup →
      (∀ k v, bagLookup fields k = some v →
        bagLookup (updateRelationData true localBag fields) k = some v) ∧
      (∀ k, k ∉ fields.map Prod.fst →
        bagLookup (updateRelationData true localBag fields) k = bagLookup localBag k)) := by
  refine ⟨rfl, fun hnd => ⟨?_, ?_⟩⟩
  · intro k v hk
    exact bagLookup_bagUpdate_mem fields localBag k v hnd hk
  · intro k hk
    exact bagLookup_bagUpdate_not_mem fields localBag k hk

/-- Witness for C3 at concrete inputs. -/
theorem claim_C3_leader_gating_witness :
    updateRelationData false [("data", "S")] [("username", "u1")] = [("data", "S")] ∧
    bagLookup (updateRelationData true [("data", "S")]
      [("username", "u1"), ("password", "p1")]) "username" = some "u1" ∧
    bagLookup (updateRelationData true [("data", "S")]
      [("username", "u1"), ("password", "p1")]) "data" =
      bagLookup [("data", "S")] "data" := by
  refine ⟨(claim_C3_leader_gating [("data", "S")] [("username", "u1")]).1, ?_, ?_⟩
  · exact ((claim_C3_leader_gating [("data", "S")]
      [("username", "u1"), ("password", "p1")]).2 (by decide)).1 "username" "u1" (by decide)
  · exact ((claim_C3_leader_gating [("data", "S")]
      [("username", "u1"), ("password", "p1")]).2 (by decide)).2 "data" (by decide)

/-- C4: on a successful diff whose stored snapshot parses to `old`, the
returned delta is exactly: added = keys of the peer view not in `old`,
deleted = keys of `old` not in the peer view, changed = keys in both
whose values differ — the peer view being the peer bag with the
reserved key excluded. -/
theorem claim_C4_diff_classification (localBag peerBag old : Smap) (d : Diff)
    (localBag2 : Smap)
    (hold : loads ((bagLookup localBag "data").getD emptyJsonStr) = some old)
    (h : diffFn localBag peerBag = .ok (d, localBag2)) :
    (∀ k, k ∈ d.added ↔ k ∈ bagKeys (peerView peerBag) ∧ k ∉ bagKeys old) ∧
    (∀ k, k ∈ d.deleted ↔ k ∈ bagKeys old ∧ k ∉ bagKeys (peerView peerBag)) ∧
    (∀ k, k ∈ d.changed ↔ k ∈ bagKeys old ∧ k ∈ bagKeys (peerView peerBag) ∧
      bagLookup old k ≠ bagLookup (peerView peerBag) k) := by
  obtain ⟨old2, hl2, hd, _⟩ := diffFn_ok_parts h
  rw [hold] at hl2
  cases Option.some.inj hl2
  subst hd
  refine ⟨?_, ?_, ?_⟩ <;> intro k <;>
    simp [computeDelta, Finset.mem_sdiff, Finset.mem_filter, Finset.mem_inter,
      and_assoc]

/-- Witness for C4 at concrete inputs. -/
theorem claim_C4_diff_classification_witness :
    "database" ∈ (computeDelta [] (peerView [("database", "db1")])).added ↔
      "database" ∈ bagKeys (peerView [("database", "db1")]) ∧
        "database" ∉ bagKeys ([] : Smap) :=
  (claim_C4_diff_classification [] [("database", "db1")] []
    (computeDelta [] (peerView [("database", "db1")]))
    (bagUpdate [] [("data", dumps (peerView [("database", "db1")]))])
    (by decide) (by decide)).1 "database"

/-- C5: a successful diff immediately followed by a second diff against
the same peer view yields the empty delta the second time. -/
theorem claim_C5_diff_idempotent (localBag peerBag : Smap) (d : Diff)
    (localBag2 : Smap) (h : diffFn localBag peerBag = .ok (d, localBag2)) :
    diffFn localBag2 peerBag =
      .ok (⟨∅, ∅, ∅⟩, bagUpdate localBag2 [("data", dumps (peerView peerBag))]) := by
  obtain ⟨old, _, _, hlb⟩ := diffFn_ok_parts h
  have hlook : bagLookup localBag2 "data" = some (dumps (peerView peerBag)) := by
    rw [hlb]
    exact bagLookup_updOne_self localBag "data" (dumps (peerView peerBag))
  rw [diffFn, hlook]
  simp [Option.getD_some, loads_dumps, computeDelta_self]

/-- Witness for C5 at concrete inputs. -/
theorem claim_C5_diff_idempotent_witness :
    diffFn (bagUpdate [] [("data", dumps (peerView [("topic", "t1")]))]) [("topic", "t1")] =
      .ok (⟨∅, ∅, ∅⟩,
        bagUpdate (bagUpdate [] [("data", dumps (peerView [("topic", "t1")]))])
          [("data", dumps (peerView [("topic", "t1")]))]) :=
  claim_C5_diff_idempotent [] [("topic", "t1")]
    (computeDelta [] (peerView [("topic", "t1")]))
    (bagUpdate [] [("data", dumps (peerView [("topic", "t1")]))]) (by decide)

/-- C6: immediately after every successful diff — even an all-empty one —
the value stored under the reserved key equals the serialization of the
peer bag's content with the reserved key excluded; and no capability
accessor write ever touches the reserved key. -/
theorem claim_C6_snapshot_invariant :
    (∀ (localBag peerBag : Smap) (d : Diff) (localBag2 : Smap),
      diffFn localBag peerBag = .ok (d, localBag2) →
      bagLookup localBag2 "data" = some (dumps (peerView peerBag))) ∧
    (∀ (isLeader : Bool) (localBag : Smap) (op : WriteOp),
      bagLookup (applyOp isLeader localBag op) "data" = bagLookup localBag "data") := by
  constructor
  · intro lb pb d lb2 h
    obtain ⟨old, _, _, hlb⟩ := diffFn_ok_parts h
    rw [hlb]
    exact bagLookup_updOne_self lb "data" (dumps (peerView pb))
  · intro isLeader lb op
    cases isLeader with
    | false => rfl
    | true =>
      cases op <;> refine bagLookup_bagUpdate_not_mem _ lb "data" ?_ <;>
        simp [opFields]

/-- Witness for C6 at concrete inputs. -/
theorem claim_C6_snapshot_invariant_witness :
    bagLookup (bagUpdate [] [("data", dumps (peerView ([] : Smap)))]) "data" =
      some (dumps (peerView ([] : Smap))) ∧
    bagLookup (applyOp true [("data", "S")] (.setVersion "1.0")) "data" =
      bagLookup [("data", "S")] "data" :=
  ⟨claim_C6_snapshot_invariant.1 [] [] (computeDelta [] (peerView []))
     (bagUpdate [] [("data", dumps (peerView ([] : Smap)))]) (by decide),
   claim_C6_snapshot_invariant.2 true [("data", "S")] (.setVersion "1.0")⟩

/-- C7: when the key "database" is first added (the leader handler emits
exactly one request event) and then merely changed to a different value,
the second notification emits no event and classifies the key as
changed — only appearance in the added set triggers an event. -/
theorem claim_C7_trigger_once (localBag peerBag old : Smap)
    (appA unitA appB unitB x y : String)
    (hold : loads ((bagLookup localBag "data").getD emptyJsonStr) = some old)
    (hnotin : "database" ∉ old.map Prod.fst)
    (hx : bagLookup peerBag "database" = some x)
    (hxy : x ≠ y) :
    onRelationChanged .database true localBag ⟨appA, unitA, peerBag⟩ =
      .ok (bagUpdate localBag [("data", dumps (peerView peerBag))],
        [⟨.databaseRequested, appA, unitA⟩]) ∧
    onRelationChanged .database true
        (bagUpdate localBag [("data", dumps (peerView peerBag))])
        ⟨appB, unitB, updOne peerBag "database" y⟩ =
      .ok (bagUpdate (bagUpdate localBag [("data", dumps (peerView peerBag))])
        [("data", dumps (peerView (updOne peerBag "database" y)))], []) ∧
    "database" ∈ (computeDelta (peerView peerBag)
      (peerView (updOne peerBag "database" y))).changed := by
  have hnd : bagLookup (peerView peerBag) "database" = some x := by
    rw [bagLookup_peerView peerBag "database" (by decide)]
    exact hx
  have hnd2 : bagLookup (peerView (updOne peerBag "database" y)) "database" = some y := by
    rw [bagLookup_peerView _ "database" (by decide)]
    exact bagLookup_updOne_self peerBag "database" y
  have hmemnd : "database" ∈ bagKeys (peerView peerBag) :=
    mem_bagKeys.mpr (mem_of_bagLookup_some hnd)
  have hmem2 : "database" ∈ bagKeys (peerView (updOne peerBag "database" y)) :=
    mem_bagKeys.mpr (mem_of_bagLookup_some hnd2)
  have hnotold : "database" ∉ bagKeys old := fun hc => hnotin (mem_bagKeys.mp hc)
  have hdiff1 : diffFn localBag peerBag =
      .ok (computeDelta old (peerView peerBag),
        bagUpdate localBag [("data", dumps (peerView peerBag))]) := by
    rw [diffFn, hold]
  have htrig1 : "database" ∈ (computeDelta old (peerView peerBag)).added := by
    simp [computeDelta, Finset.mem_sdiff, hmemnd, hnotold]
  have hres : resolveEmit .database (emitExpr .database) = some .databaseRequested := rfl
  have hlook2 : bagLookup (bagUpdate localBag [("data", dumps (peerView peerBag))])
      "data" = some (dumps (peerView peerBag)) :=
    bagLookup_updOne_self localBag "data" (dumps (peerView peerBag))
  have hdiff2 : diffFn (bagUpdate localBag [("data", dumps (peerView peerBag))])
      (updOne peerBag "database" y) =
      .ok (computeDelta (peerView peerBag) (peerView (updOne peerBag "database" y)),
        bagUpdate (bagUpdate localBag [("data", dumps (peerView peerBag))])
          [("data", dumps (peerView (updOne peerBag "database" y)))]) := by
    rw [diffFn, hlook2]
    simp [Option.getD_some, loads_dumps]
  have htrig2 : "database" ∉ (computeDelta (peerView peerBag)
      (peerView (updOne peerBag "database" y))).added := by
    simp [computeDelta, Finset.mem_sdiff, hmemnd]
  refine ⟨?_, ?_, ?_⟩
  · simp [onRelationChanged, triggerKey, hdiff1, htrig1, hres]
  · simp [onRelationChanged, triggerKey, hdiff2, htrig2]
  · have hneq : bagLookup (peerView peerBag) "database" ≠
        bagLookup (peerView (updOne peerBag "database" y)) "database" := by
      rw [hnd, hnd2]
      simp [hxy]
    simp [computeDelta, Finset.mem_filter, Finset.mem_inter, hmemnd, hmem2, hneq]

/-- Witness for C7 at concrete inputs. -/
theorem claim_C7_trigger_once_witness :
    onRelationChanged .database true [] ⟨"appA", "appA/0", [("database", "dbX")]⟩ =
      .ok (bagUpdate [] [("data", dumps (peerView [("database", "dbX")]))],
        [⟨.databaseRequested, "appA", "appA/0"⟩]) ∧
    onRelationChanged .database true
        (bagUpdate [] [("data", dumps (peerView [("database", "dbX")]))])
        ⟨"appB", "appB/0", updOne [("database", "dbX")] "database" "dbY"⟩ =
      .ok (bagUpdate (bagUpdate [] [("data", dumps (peerView [("database", "dbX")]))])
        [("data", dumps (peerView (updOne [("database", "dbX")] "database" "dbY")))], []) ∧
    "database" ∈ (computeDelta (peerView [("database", "dbX")])
      (peerView (updOne [("database", "dbX")] "database" "dbY"))).changed :=
  claim_C7_trigger_once [] [("database", "dbX")] [] "appA" "appA/0" "appB" "appB/0"
    "dbX" "dbY" (by decide) (by decide) (by decide) (by decide)

/-- C8 counterexample: for a pure deletion the union
added ∪ changed ∪ (keys(V_old) ∩ keys(V_new)) misses the deleted key,
so it does not account for every key of keys(V_old) ∪ keys(V_new). -/
theorem claim_C8_partition_cex :
    "a" ∈ bagKeys [("a", "1")] ∪ bagKeys ([] : Smap) ∧
    "a" ∉ (computeDelta [("a", "1")] []).added ∪ (computeDelta [("a", "1")] []).changed ∪
      (bagKeys [("a", "1")] ∩ bagKeys ([] : Smap)) :=
  ⟨by decide, by decide⟩

/-- C8 amended: the three sets of the delta are pairwise disjoint, and
added ∪ changed ∪ deleted ∪ (keys(V_old) ∩ keys(V_new)) accounts for
every key of keys(V_old) ∪ keys(V_new). -/
theorem claim_C8_partition_amended (vOld vNew : Smap) :
    ((computeDelta vOld vNew).added ∩ (computeDelta vOld vNew).changed = ∅) ∧
    ((computeDelta vOld vNew).added ∩ (computeDelta vOld vNew).deleted = ∅) ∧
    ((computeDelta vOld vNew).changed ∩ (computeDelta vOld vNew).deleted = ∅) ∧
    ((computeDelta vOld vNew).added ∪ (computeDelta vOld vNew).changed ∪
      (computeDelta vOld vNew).deleted ∪ (bagKeys vOld ∩ bagKeys vNew) =
      bagKeys vOld ∪ bagKeys vNew) := by
  refine ⟨?_, ?_, ?_, ?_⟩ <;> ext k <;>
    simp [computeDelta, Finset.mem_sdiff, Finset.mem_filter, Finset.mem_inter,
      Finset.mem_union] <;> tauto

/-- C9: a non-leader handler returns before computing any diff: the
provider's own bag (the stored snapshot included) is unchanged and no
typed event is emitted, for every flavor. -/
theorem claim_C9_nonleader_noop (f : Flavor) (localBag : Smap) (ev : Notif) :
    onRelationChanged f false localBag ev = .ok (localBag, []) := rfl

/-- C10: every typed-event payload accessor reads the value from the peer
bag passed at call time and returns none, instead of failing, whenever
the corresponding key is absent. -/
theorem claim_C10_event_accessors (peerBag : Smap) :
    (BaseResourceAccessEvent.extra_user_roles peerBag =
        bagLookup peerBag "extra-user-roles" ∧
      DatabaseEvent.database peerBag = bagLookup peerBag "database" ∧
      KafkaEvent.topic peerBag = bagLookup peerBag "topic" ∧
      ZookeeperEvent.chroot peerBag = bagLookup peerBag "chroot") ∧
    (("extra-user-roles" ∉ peerBag.map Prod.fst →
        BaseResourceAccessEvent.extra_user_roles peerBag = none) ∧
      ("database" ∉ peerBag.map Prod.fst → DatabaseEvent.database peerBag = none) ∧
      ("topic" ∉ peerBag.map Prod.fst → KafkaEvent.topic peerBag = none) ∧
      ("chroot" ∉ peerBag.map Prod.fst → ZookeeperEvent.chroot peerBag = none)) := by
  refine ⟨⟨rfl, rfl, rfl, rfl⟩, ?_, ?_, ?_, ?_⟩ <;>
    exact fun h => bagLookup_eq_none _ _ h

/-- Witness for C10 at a concrete bag missing all four keys. -/
theorem claim_C10_event_accessors_witness :
    BaseResourceAccessEvent.extra_user_roles [("x", "y")] = none ∧
    DatabaseEvent.database [("x", "y")] = none ∧
    KafkaEvent.topic [("x", "y")] = none ∧
    ZookeeperEvent.chroot [("x", "y")] = none :=
  ⟨(claim_C10_event_accessors [("x", "y")]).2.1 (by decide),
   (claim_C10_event_accessors [("x", "y")]).2.2.1 (by decide),
   (claim_C10_event_accessors [("x", "y")]).2.2.2.1 (by decide),
   (claim_C10_event_accessors [("x", "y")]).2.2.2.2 (by decide)⟩
